import Mathlib

/-!
Shallow embedding of `src/alternative-1-datetime-parsing/qualifier.py`,
an ISO-8601 timestamp parser built from one anchored regular expression
(`datetime_regex`) followed by sequential range validation and a final
`datetime.datetime` construction.

The regex is fixed-width apart from optional groups, so backtracking can
never rescue a failed attempt: each optional group either matches
deterministically or is skipped with no characters consumed, and the final
anchor rejects any leftover input.  `matchDatetime` below is that
deterministic reading of the pattern.  Python's `$` anchor also matches
just before one trailing newline, which `matchDatetime` reproduces.
Digit classes are modelled as ASCII `0`-`9`.
-/

/-- One of the named numeric fields the validator can reject. -/
inductive PyField
  | year
  | month
  | hour
  | minute
  | second
  | tz_hour
  | tz_minute
  deriving DecidableEq, Repr

/-- The distinguishable ways `parse_iso8601` can raise `ValueError` (or, for
`keyError`/`ctorOutOfRange`, exceptions out of the dict lookup and the
`datetime.datetime`/`datetime.timezone` constructors). -/
inductive PyError
  | noMatch
  | inconsistentFormat
  | fieldOutOfRange (f : PyField)
  | dayOutOfRange
  | keyError
  | ctorOutOfRange
  deriving DecidableEq, Repr

/-- The output value: `datetime.datetime` with an optional fixed UTC offset
in whole minutes (`none` models a naive timestamp, `some 0` models UTC). -/
structure Datetime where
  year : ℕ
  month : ℕ
  day : ℕ
  hour : ℕ
  minute : ℕ
  second : ℕ
  microsecond : ℕ
  tzinfo : Option Int
  deriving DecidableEq, Repr

/-- Capture of `(?P<second>\d{2})` with its optional subsecond digits. -/
structure SecPart where
  second : ℕ
  subsecond : Option (List ℕ)
  deriving DecidableEq, Repr

/-- Capture of `(?P<colon>:?)(?P<minute>\d{2})` and deeper. -/
structure MinPart where
  colon : Bool
  minute : ℕ
  rest : Option SecPart
  deriving DecidableEq, Repr

/-- Capture of `T(?P<hour>\d{2})` and deeper. -/
structure TimePart where
  hour : ℕ
  rest : Option MinPart
  deriving DecidableEq, Repr

/-- Capture of the timezone group: `Z`, or sign (`true` = `+`) with
two-digit hour and optional two-digit minute. -/
inductive TzPart
  | z
  | offset (isPlus : Bool) (tzHour : ℕ) (tzMinute : Option ℕ)
  deriving DecidableEq, Repr

/-- All captures of one successful `datetime_regex` match. -/
structure RawMatch where
  year : ℕ
  hyphen : Bool
  month : ℕ
  day : ℕ
  time : Option TimePart
  timezone : Option TzPart
  deriving DecidableEq, Repr

/-- `\d` on one character (ASCII), returning its value. -/
def digitVal (c : Char) : Option ℕ :=
  if '0' ≤ c ∧ c ≤ '9' then some (c.toNat - '0'.toNat) else none

/-- `\d{n}`: exactly `n` digits, most significant first, returning the
value of the digit string and the remaining input. -/
def parseDigits : ℕ → List Char → Option (ℕ × List Char)
  | 0, s => some (0, s)
  | _ + 1, [] => none
  | n + 1, c :: s =>
    match digitVal c with
    | none => none
    | some d =>
      match parseDigits n s with
      | none => none
      | some (v, r) => some (d * 10 ^ n + v, r)

/-- Greedily take at most `n` digits, returning them as a list. -/
def takeDigits : ℕ → List Char → List ℕ × List Char
  | 0, s => ([], s)
  | _ + 1, [] => ([], [])
  | n + 1, c :: s =>
    match digitVal c with
    | none => ([], c :: s)
    | some d =>
      let (ds, r) := takeDigits n s
      (d :: ds, r)

/-- The optional group `(?:\.(?P<subsecond>\d{1,6}))?`: consumed only when a
dot followed by at least one digit is present; otherwise nothing is
consumed and the capture stays unset. -/
def parseSubsec (s : List Char) : Option (List ℕ) × List Char :=
  match s with
  | '.' :: r =>
    match takeDigits 6 r with
    | ([], _) => (none, s)
    | (ds, r1) => (some ds, r1)
  | _ => (none, s)

/-- The optional group `(?:(?P=colon)(?P<second>\d{2})(...)?)?`. -/
def parseSec (colon : Bool) (s : List Char) : Option SecPart × List Char :=
  match (if colon then
           match s with
           | ':' :: r => some r
           | _ => none
         else some s) with
  | none => (none, s)
  | some s1 =>
    match parseDigits 2 s1 with
    | none => (none, s)
    | some (sv, r1) =>
      let (ss, r2) := parseSubsec r1
      (some ⟨sv, ss⟩, r2)

/-- The optional group `(?:(?P<colon>:?)(?P<minute>\d{2})(...)?)?`; when the
attempt fails nothing is consumed and all inner captures stay unset. -/
def parseMinute (s : List Char) : Option MinPart × List Char :=
  let (colon, s1) :=
    match s with
    | ':' :: r => (true, r)
    | _ => (false, s)
  match parseDigits 2 s1 with
  | none => (none, s)
  | some (mv, r1) =>
    let (sp, r2) := parseSec colon r1
    (some ⟨colon, mv, sp⟩, r2)

/-- The optional time group `(?:T(?P<hour>\d{2})(...)?)?`. -/
def parseTime (s : List Char) : Option TimePart × List Char :=
  match s with
  | 'T' :: r =>
    match parseDigits 2 r with
    | none => (none, s)
    | some (h, r1) =>
      let (mp, r2) := parseMinute r1
      (some ⟨h, mp⟩, r2)
  | _ => (none, s)

/-- The optional group `(?::?(?P<tz_minute>\d{2}))?` inside the timezone. -/
def parseTzMin (s : List Char) : Option ℕ × List Char :=
  match s with
  | ':' :: r =>
    match parseDigits 2 r with
    | none => (none, s)
    | some (v, r1) => (some v, r1)
  | _ =>
    match parseDigits 2 s with
    | none => (none, s)
    | some (v, r1) => (some v, r1)

/-- The optional timezone group `(?P<timezone>Z|(?P<sign>\+|-)...)?`. -/
def parseTz (s : List Char) : Option TzPart × List Char :=
  match s with
  | 'Z' :: r => (some .z, r)
  | c :: r =>
    if c = '+' ∨ c = '-' then
      match parseDigits 2 r with
      | none => (none, s)
      | some (h, r1) =>
        let (mo, r2) := parseTzMin r1
        (some (.offset (c = '+') h mo), r2)
    else (none, s)
  | [] => (none, s)

/-- `re.match(datetime_regex, ·)`: the whole anchored pattern.  The final
anchor `$` of a Python pattern also matches just before a single trailing
newline, hence the end test. -/
def matchDatetime (s : List Char) : Option RawMatch :=
  match parseDigits 4 s with
  | none => none
  | some (y, r1) =>
    let (hyp, r2) :=
      match r1 with
      | '-' :: r => (true, r)
      | _ => (false, r1)
    match parseDigits 2 r2 with
    | none => none
    | some (mo, r3) =>
      match (if hyp then
               match r3 with
               | '-' :: r => some r
               | _ => none
             else some r3) with
      | none => none
      | some r4 =>
        match parseDigits 2 r4 with
        | none => none
        | some (d, r5) =>
          let (tp, r6) := parseTime r5
          let (tz, r7) := parseTz r6
          if r7 = [] ∨ r7 = ['\n'] then some ⟨y, hyp, mo, d, tp, tz⟩
          else none

/-- Floor of log base 2 computed with explicit fuel (structural recursion,
so it reduces inside the kernel). -/
def log2fuel : ℕ → ℕ → ℕ
  | 0, _ => 0
  | fuel + 1, n => if 2 ≤ n then log2fuel fuel (n / 2) + 1 else 0

/-- Floor of log base 2 of a positive natural. -/
def natLog2 (n : ℕ) : ℕ := log2fuel n n

/-- Whether `2 ^ t ≤ p / q`, phrased over naturals to stay kernel-friendly. -/
def pow2le (t : ℤ) (p q : ℕ) : Bool :=
  if 0 ≤ t then q * 2 ^ t.toNat ≤ p else q ≤ p * 2 ^ (-t).toNat

/-- An integer `t` with `2 ^ t ≤ p / q` for positive `p`, `q`: the binary
exponent of the fraction. -/
def rlogPQ (p q : ℕ) : ℤ :=
  let t : ℤ := (natLog2 p : ℤ) - (natLog2 q : ℤ)
  if pow2le t p q then t else t - 1

/-- Round the fraction `P / Q` to the nearest integer, ties to even. -/
def roundScaled (P Q : ℕ) : ℕ :=
  let m0 : ℕ := P / Q
  let r2 : ℕ := 2 * (P % Q)
  if r2 < Q then m0
  else if Q < r2 then m0 + 1
  else if m0 % 2 = 0 then m0 else m0 + 1

/-- Round the positive fraction `p / q` to the nearest IEEE binary64 value
(round-half-to-even, 53-bit significand).  The result is the pair
`(m, e)` denoting `m / 2 ^ e` exactly: the fraction is scaled by `2 ^ e`
into `[2^52, 2^53)` and the scaled value is rounded to the nearest
integer, ties to even.  Subnormal and overflow ranges are irrelevant for
the values this file feeds it. -/
def roundMant (p q : ℕ) : ℕ × ℤ :=
  let e : ℤ := 52 - rlogPQ p q
  (roundScaled (p * 2 ^ e.toNat) (q * 2 ^ (-e).toNat), e)

/-- Truncation of the nonnegative dyadic `m / 2 ^ e` to a natural. -/
def dyadicFloor (m : ℕ) (e : ℤ) : ℕ :=
  if 0 ≤ e then m / 2 ^ e.toNat else m * 2 ^ (-e).toNat

/-- Value of a captured digit list, most significant first. -/
def digitsVal (ds : List ℕ) : ℕ := ds.foldl (fun a d => 10 * a + d) 0

/-- `int(float(f"0.{subsec}") * 1000000)`: the decimal fraction named by
the captured digits is correctly rounded to binary64 (`float` of a decimal
literal), that dyadic `m₁ / 2 ^ e₁` is multiplied exactly by `10 ^ 6` and
correctly rounded again (IEEE multiplication), and `int` truncates the
nonnegative result. -/
def pyMicro (ds : List ℕ) : ℕ :=
  let f := roundMant (digitsVal ds) (10 ^ ds.length)
  let p := roundMant (f.1 * 1000000 * 2 ^ (-f.2).toNat) (2 ^ f.2.toNat)
  dyadicFloor p.1 p.2

/-- The `days_in_month` dict literal from the source, parameterised by the
computed `days_in_february`. -/
def days_in_month_list (dif : ℕ) : List (ℕ × ℕ) :=
  [(1, 31), (2, dif), (3, 31), (4, 30), (5, 31), (6, 30),
   (7, 31), (8, 31), (9, 30), (10, 31), (11, 30), (12, 31)]

/-- CPython's `_days_in_month`, used by the `datetime.datetime`
constructor: table `[31,28,31,30,31,30,31,31,30,31,30,31]` with February
29 when `year % 4 == 0 and (year % 100 != 0 or year % 400 == 0)`. -/
def datetime_days_in_month (y m : ℕ) : ℕ :=
  if m = 2 then
    if y % 4 = 0 ∧ (y % 100 ≠ 0 ∨ y % 400 = 0) then 29 else 28
  else if m = 4 ∨ m = 6 ∨ m = 9 ∨ m = 11 then 30
  else 31

/-- The `datetime.datetime` constructor's own argument validation:
`MINYEAR=1 ≤ year ≤ MAXYEAR=9999`, month, day against `_days_in_month`,
and the time fields; `none` models the `ValueError` it would raise. -/
def datetime_mk (y mo d h mi se us : ℕ) (tz : Option Int) : Option Datetime :=
  if 1 ≤ y ∧ y ≤ 9999 ∧ 1 ≤ mo ∧ mo ≤ 12 ∧ 1 ≤ d ∧ d ≤ datetime_days_in_month y mo ∧
      h ≤ 23 ∧ mi ≤ 59 ∧ se ≤ 59 ∧ us ≤ 999999 then
    some ⟨y, mo, d, h, mi, se, us, tz⟩
  else none

/-- Equality of `Except` results is decidable componentwise. -/
instance {ε α : Type} [DecidableEq ε] [DecidableEq α] : DecidableEq (Except ε α) := fun x y =>
  match x, y with
  | .error a, .error b =>
    match decEq a b with
    | isTrue h => isTrue (by rw [h])
    | isFalse h => isFalse (by intro hh; injection hh; exact h ‹_›)
  | .ok a, .ok b =>
    match decEq a b with
    | isTrue h => isTrue (by rw [h])
    | isFalse h => isFalse (by intro hh; injection hh; exact h ‹_›)
  | .error _, .ok _ => isFalse (by intro h; exact Except.noConfusion h)
  | .ok _, .error _ => isFalse (by intro h; exact Except.noConfusion h)

/-- `match.group("colon")` as the code reads it: `none` when the
minute-bearing group did not participate, otherwise whether the captured
separator was `":"`. -/
def timeSepOf (m : RawMatch) : Option Bool :=
  m.time.bind fun t => t.rest.map (·.colon)

/-- `int(match.group("hour") or 0)`. -/
def hourOf (m : RawMatch) : ℕ := (m.time.map (·.hour)).getD 0

/-- `int(match.group("minute") or 0)`. -/
def minuteOf (m : RawMatch) : ℕ :=
  ((m.time.bind (·.rest)).map (·.minute)).getD 0

/-- `int(match.group("second") or 0)`. -/
def secondOf (m : RawMatch) : ℕ :=
  (((m.time.bind (·.rest)).bind (·.rest)).map (·.second)).getD 0

/-- `match.group("subsecond")`. -/
def subsecOf (m : RawMatch) : Option (List ℕ) :=
  ((m.time.bind (·.rest)).bind (·.rest)).bind (·.subsecond)

/-- The timezone block of `parse_iso8601`: range checks on the offset
fields, then `datetime.timezone(datetime.timedelta(...))`, whose
constructor demands a strict magnitude below 24 hours (`ctorOutOfRange`
models that exception). -/
def tzCompute (tz : Option TzPart) : Except PyError (Option Int) :=
  match tz with
  | none => .ok none
  | some .z => .ok (some 0)
  | some (.offset isPlus th tm) =>
    if ¬ (th ≤ 23) then .error (.fieldOutOfRange .tz_hour)
    else if ¬ (tm.getD 0 ≤ 59) then .error (.fieldOutOfRange .tz_minute)
    else
      let off : Int := (if isPlus then 1 else -1) * (th * 60 + tm.getD 0)
      if -1440 < off ∧ off < 1440 then .ok (some off)
      else .error .ctorOutOfRange

/-- The tail of `parse_iso8601`: `days_in_february`, the `days_in_month`
dict lookup (`keyError` models a `KeyError` miss), the day range check, and
the final `datetime.datetime(...)` call. -/
def dayBuild (m : RawMatch) (hour minute second microsecond : ℕ)
    (tzinfo : Option Int) : Except PyError Datetime :=
  let dif0 : ℕ := if m.year % 4 = 0 then 29 else 28
  let dif : ℕ := if m.year % 100 = 0 ∧ m.year % 400 ≠ 0 then 28 else dif0
  match (days_in_month_list dif).lookup m.month with
  | none => .error .keyError
  | some dim =>
    if ¬ (1 ≤ m.day ∧ m.day ≤ dim) then .error .dayOutOfRange
    else
      match datetime_mk m.year m.month m.day hour minute second microsecond tzinfo with
      | some dt => .ok dt
      | none => .error .ctorOutOfRange

/-- The `microsecond` local of `parse_iso8601`: converted captured digits,
or zero when the fraction is absent. -/
def microOf (m : RawMatch) : ℕ :=
  match subsecOf m with
  | some ds => pyMicro ds
  | none => 0

/-- The body of `parse_iso8601` after a successful match, line by line:
truncation consistency, year/month/hour/minute/second range checks,
microsecond conversion, timezone block, then day check and construction. -/
def parseValidate (m : RawMatch) : Except PyError Datetime :=
  if (match timeSepOf m with
      | some b => b != m.hyphen
      | none => false) then .error .inconsistentFormat
  else if m.year < 1 then .error (.fieldOutOfRange .year)
  else if ¬ (1 ≤ m.month ∧ m.month ≤ 12) then .error (.fieldOutOfRange .month)
  else if ¬ (hourOf m ≤ 23) then .error (.fieldOutOfRange .hour)
  else if ¬ (minuteOf m ≤ 59) then .error (.fieldOutOfRange .minute)
  else if ¬ (secondOf m ≤ 59) then .error (.fieldOutOfRange .second)
  else
    match tzCompute m.timezone with
    | .error e => .error e
    | .ok tzinfo => dayBuild m (hourOf m) (minuteOf m) (secondOf m) (microOf m) tzinfo

/-- `parse_iso8601` from the source: regex match then validation and
construction; a failed match raises the generic format `ValueError`. -/
def parse_iso8601 (timestamp : String) : Except PyError Datetime :=
  match matchDatetime timestamp.data with
  | none => .error .noMatch
  | some m => parseValidate m

theorem parse_eq_of_match {s : String} {m : RawMatch}
    (hm : matchDatetime s.data = some m) : parse_iso8601 s = parseValidate m := by
  unfold parse_iso8601
  rw [hm]

theorem parse_eq_noMatch {s : String} (hm : matchDatetime s.data = none) :
    parse_iso8601 s = .error .noMatch := by
  unfold parse_iso8601
  rw [hm]

/-! ### Basic facts about the matcher's building blocks -/

theorem digitVal_lt {c : Char} {d : ℕ} (h : digitVal c = some d) : d < 10 := by
  unfold digitVal at h
  split at h
  · rename_i hc
    obtain ⟨h0, h9⟩ := hc
    have h9' : c.toNat ≤ 57 := h9
    injection h with h
    have h48 : '0'.toNat = 48 := rfl
    omega
  · exact absurd h (by simp)

theorem parseDigits_lt : ∀ (n : ℕ) (s : List Char) (v : ℕ) (r : List Char),
    parseDigits n s = some (v, r) → v < 10 ^ n := by
  intro n
  induction n with
  | zero =>
    intro s v r h
    simp [parseDigits] at h
    omega
  | succ n ih =>
    intro s v r h
    match s with
    | [] => simp [parseDigits] at h
    | c :: s =>
      unfold parseDigits at h
      cases hc : digitVal c with
      | none => rw [hc] at h; simp at h
      | some d =>
        rw [hc] at h
        cases hp : parseDigits n s with
        | none => rw [hp] at h; simp at h
        | some vr =>
          rw [hp] at h
          obtain ⟨v', r'⟩ := vr
          simp at h
          obtain ⟨hv, -⟩ := h
          have hd := digitVal_lt hc
          have hv' := ih s v' r' hp
          have : d * 10 ^ n + v' < 10 ^ (n + 1) := by
        
            calc d * 10 ^ n + v' < d * 10 ^ n + 10 ^ n := by omega
              _ ≤ 9 * 10 ^ n + 10 ^ n := by
                have : d * 10 ^ n ≤ 9 * 10 ^ n := Nat.mul_le_mul_right _ (by omega)
                omega
              _ = 10 ^ (n + 1) := by ring
          omega

theorem takeDigits_wf : ∀ (n : ℕ) (s : List Char),
    (takeDigits n s).1.length ≤ n ∧ ∀ d ∈ (takeDigits n s).1, d < 10 := by
  intro n
  induction n with
  | zero => intro s; simp [takeDigits]
  | succ n ih =>
    intro s
    match s with
    | [] => simp [takeDigits]
    | c :: s =>
      unfold takeDigits
      cases hc : digitVal c with
      | none => simp
      | some d =>
        simp only
        obtain ⟨h1, h2⟩ := ih s
        constructor
        · simpa using h1
        · intro x hx
          simp at hx
          rcases hx with rfl | hx
          · exact digitVal_lt hc
          · exact h2 x hx

/-- Wellformedness of a captured subsecond digit list. -/
def SubsecWF (ds : List ℕ) : Prop :=
  1 ≤ ds.length ∧ ds.length ≤ 6 ∧ ∀ d ∈ ds, d < 10

theorem parseSubsec_wf {s : List Char} {ds : List ℕ} {r : List Char}
    (h : parseSubsec s = (some ds, r)) : SubsecWF ds := by
  unfold parseSubsec at h
  split at h
  · rename_i r0
    obtain ⟨hlen, hdig⟩ := takeDigits_wf 6 r0
    rcases htd : takeDigits 6 r0 with ⟨ds', r1'⟩
    rw [htd] at h hlen hdig
    match ds' with
    | [] => simp at h
    | d :: ds' =>
      simp only [Prod.mk.injEq, Option.some.injEq] at h
      obtain ⟨rfl, -⟩ := h
      exact ⟨by simp, hlen, hdig⟩
  · simp at h

theorem parseSec_wf {colon : Bool} {s : List Char} {sp : SecPart} {r : List Char}
    (h : parseSec colon s = (some sp, r)) {ds : List ℕ}
    (hds : sp.subsecond = some ds) : SubsecWF ds := by
  unfold parseSec at h
  split at h
  · simp at h
  · split at h
    · simp at h
    · rename_i sv r1 heq2
      rcases hsub : parseSubsec r1 with ⟨o, r2⟩
      rw [hsub] at h
      simp only [Prod.mk.injEq, Option.some.injEq] at h
      obtain ⟨rfl, -⟩ := h
      simp only at hds
      subst hds
      exact parseSubsec_wf hsub

theorem parseMinute_wf {s : List Char} {mp : MinPart} {r : List Char}
    (h : parseMinute s = (some mp, r)) {sp : SecPart} (hsp : mp.rest = some sp)
    {ds : List ℕ} (hds : sp.subsecond = some ds) : SubsecWF ds := by
  unfold parseMinute at h
  split at h
  rename_i colon s1 hcol
  split at h
  · simp at h
  · rename_i mv r1 heq
    rcases hps : parseSec colon r1 with ⟨o, r2⟩
    rw [hps] at h
    simp only [Prod.mk.injEq, Option.some.injEq] at h
    obtain ⟨rfl, -⟩ := h
    simp only at hsp
    subst hsp
    exact parseSec_wf hps hds

theorem parseTime_wf {s : List Char} {tp : TimePart} {r : List Char}
    (h : parseTime s = (some tp, r)) {mp : MinPart} (hmp : tp.rest = some mp)
    {sp : SecPart} (hsp : mp.rest = some sp)
    {ds : List ℕ} (hds : sp.subsecond = some ds) : SubsecWF ds := by
  unfold parseTime at h
  split at h
  · rename_i r0
    split at h
    · simp at h
    · rename_i hv r1 heq
      rcases hpm : parseMinute r1 with ⟨o, r2⟩
      rw [hpm] at h
      simp only [Prod.mk.injEq, Option.some.injEq] at h
      obtain ⟨rfl, -⟩ := h
      simp only at hmp
      subst hmp
      exact parseMinute_wf hpm hsp hds
  · simp at h

/-- Inversion for a successful regex match: field widths bound the captured
values, and any captured subsecond digit string is 1-6 digits below ten. -/
theorem matchDatetime_inv {s : List Char} {m : RawMatch}
    (h : matchDatetime s = some m) :
    m.year < 10000 ∧ m.month < 100 ∧ m.day < 100 ∧
      ∀ ds, subsecOf m = some ds → SubsecWF ds := by
  unfold matchDatetime at h
  split at h
  · simp at h
  · rename_i y r1 hy
    split at h
    rename_i hyp r2 hhyp
    split at h
    · simp at h
    · rename_i mo r3 hmo
      split at h
      · simp at h
      · rename_i r4 hr4
        split at h
        · simp at h
        · rename_i d r5 hd
          rcases hpt : parseTime r5 with ⟨tp, r6⟩
          rw [hpt] at h
          simp only at h
          rcases hptz : parseTz r6 with ⟨tz, r7⟩
          rw [hptz] at h
          simp only at h
          split at h
          · simp only [Option.some.injEq] at h
            subst h
            refine ⟨parseDigits_lt 4 _ _ _ hy, parseDigits_lt 2 _ _ _ hmo,
              parseDigits_lt 2 _ _ _ hd, ?_⟩
            intro ds hds
            unfold subsecOf at hds
            simp only at hds
            match htp : tp with
            | none => simp at hds
            | some tpv =>
              match hmp : tpv.rest with
              | none => simp [Option.bind, hmp] at hds
              | some mpv =>
                match hspv : mpv.rest with
                | none => simp [Option.bind, hmp, hspv] at hds
                | some spv =>
                  simp only [Option.bind, hmp, hspv, Option.some_bind] at hds
                  exact parseTime_wf hpt hmp hspv hds
          · simp at h

/-! ### Bounds for the binary64 rounding model -/

theorem log2fuel_bounds : ∀ (fuel n : ℕ), 1 ≤ n → n ≤ fuel →
    2 ^ log2fuel fuel n ≤ n ∧ n < 2 ^ (log2fuel fuel n + 1) := by
  intro fuel
  induction fuel with
  | zero => intro n h1 h2; omega
  | succ fuel ih =>
    intro n h1 h2
    unfold log2fuel
    split
    · rename_i h2n
      have hrec := ih (n / 2) (by omega) (by omega)
      obtain ⟨hl, hr⟩ := hrec
      constructor
      · calc 2 ^ (log2fuel fuel (n / 2) + 1) = 2 ^ log2fuel fuel (n / 2) * 2 := by ring
          _ ≤ n / 2 * 2 := by omega
          _ ≤ n := by omega
      · calc n < (n / 2 + 1) * 2 := by omega
          _ ≤ 2 ^ (log2fuel fuel (n / 2) + 1) * 2 := by
              have : n / 2 + 1 ≤ 2 ^ (log2fuel fuel (n / 2) + 1) := hr
              omega
          _ = 2 ^ (log2fuel fuel (n / 2) + 1 + 1) := by ring
    · rename_i h2n
      have : n = 1 := by omega
      subst this
      simp

theorem natLog2_le {n : ℕ} (h : 1 ≤ n) : 2 ^ natLog2 n ≤ n :=
  (log2fuel_bounds n n h le_rfl).1

theorem lt_natLog2 {n : ℕ} (h : 1 ≤ n) : n < 2 ^ (natLog2 n + 1) :=
  (log2fuel_bounds n n h le_rfl).2

theorem pow2le_iff (t : ℤ) (p q : ℕ) (hq : 0 < q) :
    pow2le t p q = true ↔ (2 : ℚ) ^ t ≤ (p : ℚ) / (q : ℚ) := by
  have hq' : (0 : ℚ) < (q : ℚ) := by exact_mod_cast hq
  unfold pow2le
  split
  · rename_i ht
    have h2 : (2 : ℚ) ^ t = ((2 ^ t.toNat : ℕ) : ℚ) := by
      push_cast
      rw [← zpow_natCast (2 : ℚ) t.toNat, Int.toNat_of_nonneg ht]
    rw [decide_eq_true_eq, h2, le_div_iff₀ hq', ← Nat.cast_mul, Nat.cast_le, Nat.mul_comm]
  · rename_i ht
    have hA : (0 : ℚ) < ((2 ^ (-t).toNat : ℕ) : ℚ) := by positivity
    have h2 : (2 : ℚ) ^ t = 1 / ((2 ^ (-t).toNat : ℕ) : ℚ) := by
      push_cast
      rw [← zpow_natCast (2 : ℚ) (-t).toNat, Int.toNat_of_nonneg (by omega : (0:ℤ) ≤ -t)]
      rw [one_div, ← zpow_neg, neg_neg]
    rw [decide_eq_true_eq, h2, div_le_div_iff₀ hA hq', one_mul, ← Nat.cast_mul, Nat.cast_le]

theorem rlogPQ_le (p q : ℕ) (hp : 0 < p) (hq : 0 < q) :
    (2 : ℚ) ^ rlogPQ p q ≤ (p : ℚ) / (q : ℚ) := by
  simp only [rlogPQ]
  split
  · rename_i ht
    exact (pow2le_iff _ p q hq).mp ht
  · rename_i ht
    have ha := natLog2_le hp
    have hb := lt_natLog2 hq
    have hq' : (0 : ℚ) < (q : ℚ) := by exact_mod_cast hq
    have h1 : ((2 ^ natLog2 p : ℕ) : ℚ) ≤ (p : ℚ) := by exact_mod_cast ha
    have h2 : (q : ℚ) ≤ ((2 ^ (natLog2 q + 1) : ℕ) : ℚ) := by
      exact_mod_cast Nat.le_of_lt hb
    have hpos : (0 : ℚ) < ((2 ^ (natLog2 q + 1) : ℕ) : ℚ) := by positivity
    have key : ((2 ^ natLog2 p : ℕ) : ℚ) / ((2 ^ (natLog2 q + 1) : ℕ) : ℚ) ≤ (p : ℚ) / q :=
      div_le_div₀ (by positivity) h1 hq' h2
    calc (2 : ℚ) ^ ((natLog2 p : ℤ) - (natLog2 q : ℤ) - 1)
        = ((2 ^ natLog2 p : ℕ) : ℚ) / ((2 ^ (natLog2 q + 1) : ℕ) : ℚ) := by
          push_cast
          rw [← zpow_natCast (2 : ℚ) (natLog2 p), ← zpow_natCast (2 : ℚ) (natLog2 q + 1)]
          rw [← zpow_sub₀ (by norm_num : (2:ℚ) ≠ 0)]
          congr 1
          push_cast
          ring
      _ ≤ (p : ℚ) / q := key

theorem roundScaled_le (P Q : ℕ) (hQ : 0 < Q) :
    ((roundScaled P Q : ℕ) : ℚ) ≤ (P : ℚ) / Q + 1 / 2 := by
  have hQ' : (0 : ℚ) < (Q : ℚ) := by exact_mod_cast hQ
  have hdm : Q * (P / Q) + P % Q = P := Nat.div_add_mod P Q
  have hPcast : (P : ℚ) = Q * ((P / Q : ℕ) : ℚ) + ((P % Q : ℕ) : ℚ) := by
    exact_mod_cast hdm.symm
  have hdivle : ((P / Q : ℕ) : ℚ) ≤ (P : ℚ) / Q := Nat.cast_div_le
  have hsucc : Q ≤ 2 * (P % Q) → ((P / Q + 1 : ℕ) : ℚ) ≤ (P : ℚ) / Q + 1 / 2 := by
    intro hr
    have hr' : (Q : ℚ) ≤ 2 * ((P % Q : ℕ) : ℚ) := by exact_mod_cast hr
    have key : ((P / Q + 1 : ℕ) : ℚ) * Q ≤ (P : ℚ) + (Q : ℚ) / 2 := by
      push_cast
      nlinarith [hPcast, hr']
    have e2 : ((P : ℚ) + (Q : ℚ) / 2) / Q = (P : ℚ) / Q + 1 / 2 := by
      rw [add_div]
      congr 1
      rw [div_div, mul_comm, ← div_div, div_self (ne_of_gt hQ')]
    calc ((P / Q + 1 : ℕ) : ℚ) = ((P / Q + 1 : ℕ) : ℚ) * Q / Q := by
          field_simp
      _ ≤ ((P : ℚ) + (Q : ℚ) / 2) / Q := by gcongr
      _ = (P : ℚ) / Q + 1 / 2 := e2
  simp only [roundScaled]
  split
  · exact le_trans hdivle (by linarith)
  · split
    · rename_i h1 h2
      exact hsucc (by omega)
    · split
      · exact le_trans hdivle (by linarith)
      · rename_i h1 h2 h3
        exact hsucc (by omega)

theorem dyadic_div_eq (x y : ℕ) (e : ℤ) (hy : 0 < y) :
    ((x * 2 ^ e.toNat : ℕ) : ℚ) / ((y * 2 ^ (-e).toNat : ℕ) : ℚ) =
      (x : ℚ) / (y : ℚ) * (2 : ℚ) ^ e := by
  have hy' : ((y : ℚ)) ≠ 0 := by positivity
  rcases le_or_lt 0 e with he | he
  · have h1 : (-e).toNat = 0 := by omega
    have h2 : (2 : ℚ) ^ e = (2 : ℚ) ^ e.toNat := by
      rw [← zpow_natCast (2 : ℚ) e.toNat, Int.toNat_of_nonneg he]
    rw [h1, h2]
    push_cast
    ring
  · have h1 : e.toNat = 0 := by omega
    have h2 : (2 : ℚ) ^ e = ((2 : ℚ) ^ (-e).toNat)⁻¹ := by
      rw [← zpow_natCast (2 : ℚ) (-e).toNat, Int.toNat_of_nonneg (by omega : (0:ℤ) ≤ -e),
        ← zpow_neg, neg_neg]
    rw [h1, h2]
    push_cast
    rw [mul_one, mul_comm (y : ℚ) _, ← div_div, div_right_comm, div_eq_mul_inv]

theorem roundMant_le (p q : ℕ) (hp : 0 < p) (hq : 0 < q) :
    ((roundMant p q).1 : ℚ) * (2 : ℚ) ^ (-(roundMant p q).2) ≤
      (p : ℚ) / (q : ℚ) * (1 + (2 : ℚ) ^ (-53 : ℤ)) := by
  simp only [roundMant]
  set L : ℤ := rlogPQ p q with hL
  set e : ℤ := 52 - L with he
  set P : ℕ := p * 2 ^ e.toNat with hP
  set Q : ℕ := q * 2 ^ (-e).toNat with hQ
  have hQpos : 0 < Q := by positivity
  have hepos : (0 : ℚ) < (2 : ℚ) ^ (-e) := by positivity
  have hPQ : (P : ℚ) / (Q : ℚ) = (p : ℚ) / (q : ℚ) * (2 : ℚ) ^ e :=
    dyadic_div_eq p q e hq
  have h2L : (2 : ℚ) ^ L ≤ (p : ℚ) / (q : ℚ) := rlogPQ_le p q hp hq
  have hmle : ((roundScaled P Q : ℕ) : ℚ) ≤ (P : ℚ) / Q + 1 / 2 :=
    roundScaled_le P Q hQpos
  calc ((roundScaled P Q : ℕ) : ℚ) * (2 : ℚ) ^ (-e)
      ≤ ((P : ℚ) / Q + 1 / 2) * (2 : ℚ) ^ (-e) := by
        exact mul_le_mul_of_nonneg_right hmle (le_of_lt hepos)
    _ = (p : ℚ) / q * ((2 : ℚ) ^ e * (2 : ℚ) ^ (-e)) + (2 : ℚ) ^ (-e) / 2 := by
        rw [hPQ]; ring
    _ = (p : ℚ) / q + (2 : ℚ) ^ (-e) / 2 := by
        rw [← zpow_add₀ (by norm_num : (2:ℚ) ≠ 0), add_neg_cancel, zpow_zero, mul_one]
    _ = (p : ℚ) / q + (2 : ℚ) ^ L * (2 : ℚ) ^ (-53 : ℤ) := by
        congr 1
        rw [← zpow_add₀ (by norm_num : (2:ℚ) ≠ 0)]
        rw [div_eq_mul_inv, show ((2:ℚ))⁻¹ = (2:ℚ) ^ (-1 : ℤ) by
          rw [zpow_neg, zpow_one]]
        rw [← zpow_add₀ (by norm_num : (2:ℚ) ≠ 0)]
        congr 1
        omega
    _ ≤ (p : ℚ) / q + (p : ℚ) / q * (2 : ℚ) ^ (-53 : ℤ) := by
        have : (0:ℚ) ≤ (2 : ℚ) ^ (-53 : ℤ) := by positivity
        nlinarith [h2L]
    _ = (p : ℚ) / q * (1 + (2 : ℚ) ^ (-53 : ℤ)) := by ring

theorem digitsVal_aux : ∀ (ds : List ℕ), (∀ d ∈ ds, d < 10) →
    ∀ a, List.foldl (fun a d => 10 * a + d) a ds < (a + 1) * 10 ^ ds.length := by
  intro ds
  induction ds with
  | nil => intro _ a; simp
  | cons d ds ih =>
    intro hds a
    have hd : d < 10 := hds d (by simp)
    have htail := ih (fun x hx => hds x (by simp [hx])) (10 * a + d)
    calc List.foldl (fun a d => 10 * a + d) (10 * a + d) ds
        < (10 * a + d + 1) * 10 ^ ds.length := htail
      _ ≤ ((a + 1) * 10) * 10 ^ ds.length := by
          have : 10 * a + d + 1 ≤ (a + 1) * 10 := by omega
          exact Nat.mul_le_mul_right _ this
      _ = (a + 1) * 10 ^ (d :: ds).length := by
          simp [List.length_cons]
          ring

theorem digitsVal_lt {ds : List ℕ} (hds : ∀ d ∈ ds, d < 10) :
    digitsVal ds < 10 ^ ds.length := by
  have := digitsVal_aux ds hds 0
  simpa [digitsVal] using this

theorem roundScaled_zero (Q : ℕ) (hQ : 0 < Q) : roundScaled 0 Q = 0 := by
  simp [roundScaled, Nat.zero_div, Nat.zero_mod, hQ]

theorem dyadicFloor_zero (e : ℤ) : dyadicFloor 0 e = 0 := by
  unfold dyadicFloor
  split <;> simp

theorem roundMant_fst_zero (q : ℕ) (hq : 0 < q) : (roundMant 0 q).1 = 0 := by
  simp only [roundMant, Nat.zero_mul]
  exact roundScaled_zero _ (by positivity)

theorem dyadicFloor_lt {m B : ℕ} {e : ℤ}
    (h : (m : ℚ) * (2 : ℚ) ^ (-e) < (B : ℚ)) : dyadicFloor m e < B := by
  unfold dyadicFloor
  split
  · rename_i he
    have h2 : (2 : ℚ) ^ (-e) = (((2 ^ e.toNat : ℕ) : ℚ))⁻¹ := by
      push_cast
      rw [← zpow_natCast (2 : ℚ) e.toNat, Int.toNat_of_nonneg he, ← zpow_neg]
    rw [h2] at h
    have hpow : (0 : ℚ) < ((2 ^ e.toNat : ℕ) : ℚ) := by positivity
    have hmlt : (m : ℚ) < (B : ℚ) * ((2 ^ e.toNat : ℕ) : ℚ) := by
      rw [mul_inv_lt_iff₀ hpow] at h
      linarith
    have hmlt' : m < B * 2 ^ e.toNat := by exact_mod_cast hmlt
    exact Nat.div_lt_of_lt_mul (by simpa [Nat.mul_comm] using hmlt')
  · rename_i he
    have h2 : (2 : ℚ) ^ (-e) = ((2 ^ (-e).toNat : ℕ) : ℚ) := by
      push_cast
      rw [← zpow_natCast (2 : ℚ) (-e).toNat, Int.toNat_of_nonneg (by omega : (0:ℤ) ≤ -e)]
    rw [h2] at h
    have : ((m * 2 ^ (-e).toNat : ℕ) : ℚ) < (B : ℚ) := by push_cast; push_cast at h; linarith
    exact_mod_cast this

theorem pyMicro_le {ds : List ℕ} (h : SubsecWF ds) : pyMicro ds ≤ 999999 := by
  obtain ⟨hlen1, hlen6, hdig⟩ := h
  have hq : (0:ℕ) < 10 ^ ds.length := by positivity
  by_cases hn : digitsVal ds = 0
  · rcases hf : roundMant (digitsVal ds) (10 ^ ds.length) with ⟨m1, e1⟩
    have hm1 : m1 = 0 := by
      have h0 := roundMant_fst_zero (10 ^ ds.length) hq
      rw [hn] at hf
      rw [hf] at h0
      exact h0
    rcases hs : roundMant (m1 * 1000000 * 2 ^ (-e1).toNat) (2 ^ e1.toNat) with ⟨m2, e2⟩
    have hm2 : m2 = 0 := by
      have := roundMant_fst_zero (2 ^ e1.toNat) (by positivity)
      rw [hm1] at hs
      simp only [Nat.zero_mul] at hs
      rw [hs] at this
      exact this
    simp only [pyMicro]
    rw [hf, hs]
    show dyadicFloor m2 e2 ≤ 999999
    rw [hm2, dyadicFloor_zero]
    omega
  · have hn1 : 1 ≤ digitsVal ds := Nat.one_le_iff_ne_zero.mpr hn
    rcases hf : roundMant (digitsVal ds) (10 ^ ds.length) with ⟨m1, e1⟩
    have hv1 : (m1:ℚ) * (2:ℚ) ^ (-e1) ≤
        (digitsVal ds : ℚ) / ((10 ^ ds.length : ℕ) : ℚ) * (1 + (2:ℚ) ^ (-53 : ℤ)) := by
      have := roundMant_le (digitsVal ds) (10 ^ ds.length) hn1 hq
      rw [hf] at this
      exact this
    by_cases hm1 : m1 = 0
    · rcases hs : roundMant (m1 * 1000000 * 2 ^ (-e1).toNat) (2 ^ e1.toNat) with ⟨m2, e2⟩
      have hm2 : m2 = 0 := by
        have := roundMant_fst_zero (2 ^ e1.toNat) (by positivity)
        rw [hm1] at hs
        simp only [Nat.zero_mul] at hs
        rw [hs] at this
        exact this
      simp only [pyMicro]
      rw [hf, hs]
      show dyadicFloor m2 e2 ≤ 999999
      rw [hm2, dyadicFloor_zero]
      omega
    · have hm1' : 0 < m1 := Nat.pos_of_ne_zero hm1
      have hp2 : 0 < m1 * 1000000 * 2 ^ (-e1).toNat := by positivity
      have hq2 : (0:ℕ) < 2 ^ e1.toNat := by positivity
      rcases hs : roundMant (m1 * 1000000 * 2 ^ (-e1).toNat) (2 ^ e1.toNat) with ⟨m2, e2⟩
      have hv2 : (m2:ℚ) * (2:ℚ) ^ (-e2) ≤
          ((m1 * 1000000 * 2 ^ (-e1).toNat : ℕ) : ℚ) / ((2 ^ e1.toNat : ℕ) : ℚ) *
            (1 + (2:ℚ) ^ (-53 : ℤ)) := by
        have := roundMant_le (m1 * 1000000 * 2 ^ (-e1).toNat) (2 ^ e1.toNat) hp2 hq2
        rw [hs] at this
        exact this
      have hratio : ((m1 * 1000000 * 2 ^ (-e1).toNat : ℕ) : ℚ) / ((2 ^ e1.toNat : ℕ) : ℚ) =
          (m1:ℚ) * (2:ℚ) ^ (-e1) * 1000000 := by
        have hdd := dyadic_div_eq (m1 * 1000000) 1 (-e1) one_pos
        rw [neg_neg] at hdd
        rw [show ((1 * 2 ^ e1.toNat : ℕ) : ℚ) = ((2 ^ e1.toNat : ℕ) : ℚ) by rw [Nat.one_mul]] at hdd
        rw [hdd]
        push_cast
        ring
      have hXle : (digitsVal ds : ℚ) / ((10 ^ ds.length : ℕ) : ℚ) ≤ 1 - 1 / 1000000 := by
        have hlt : digitsVal ds < 10 ^ ds.length := digitsVal_lt hdig
        have hkle : (10:ℕ) ^ ds.length ≤ 10 ^ 6 := Nat.pow_le_pow_right (by norm_num) hlen6
        have hQ' : (0:ℚ) < ((10 ^ ds.length : ℕ) : ℚ) := by positivity
        rw [div_le_iff₀ hQ']
        have h1 : (digitsVal ds : ℚ) + 1 ≤ ((10 ^ ds.length : ℕ) : ℚ) := by
          exact_mod_cast hlt
        have h2 : ((10 ^ ds.length : ℕ) : ℚ) ≤ 1000000 := by exact_mod_cast hkle
        nlinarith
      have hX0 : (0:ℚ) ≤ (digitsVal ds : ℚ) / ((10 ^ ds.length : ℕ) : ℚ) := by positivity
      have hA0 : (0:ℚ) ≤ (m1:ℚ) * (2:ℚ) ^ (-e1) := by positivity
      have hε : (2:ℚ) ^ (-53 : ℤ) = 1 / 9007199254740992 := by
        rw [zpow_neg]
        norm_num
      have hfinal : (m2:ℚ) * (2:ℚ) ^ (-e2) < ((1000000 : ℕ) : ℚ) := by
        calc (m2:ℚ) * (2:ℚ) ^ (-e2)
            ≤ (m1:ℚ) * (2:ℚ) ^ (-e1) * 1000000 * (1 + (2:ℚ) ^ (-53 : ℤ)) := by
              rw [hratio] at hv2
              exact hv2
          _ ≤ ((digitsVal ds : ℚ) / ((10 ^ ds.length : ℕ) : ℚ) * (1 + (2:ℚ) ^ (-53 : ℤ))) *
                1000000 * (1 + (2:ℚ) ^ (-53 : ℤ)) := by
              gcongr
          _ ≤ ((1 - 1 / 1000000) * (1 + (2:ℚ) ^ (-53 : ℤ))) * 1000000 *
                (1 + (2:ℚ) ^ (-53 : ℤ)) := by
              gcongr
          _ < ((1000000 : ℕ) : ℚ) := by
              rw [hε]
              norm_num
      have hlt := dyadicFloor_lt hfinal
      simp only [pyMicro]
      rw [hf, hs]
      show dyadicFloor m2 e2 ≤ 999999
      omega

/-! ### The day-of-month bound -/

/-- The day bound exactly as §4.2 step 9 of the specification words it:
proleptic Gregorian, a year is leap iff divisible by 4 except century
years unless also divisible by 400. -/
def specMaxDay (y m : ℕ) : ℕ :=
  if m = 2 then
    if y % 4 = 0 ∧ ¬(y % 100 = 0 ∧ y % 400 ≠ 0) then 29 else 28
  else if m = 4 ∨ m = 6 ∨ m = 9 ∨ m = 11 then 30 else 31

theorem days_in_month_lookup (dif : ℕ) {mo : ℕ} (h1 : 1 ≤ mo) (h2 : mo ≤ 12) :
    (days_in_month_list dif).lookup mo =
      some (if mo = 2 then dif else if mo = 4 ∨ mo = 6 ∨ mo = 9 ∨ mo = 11 then 30 else 31) := by
  interval_cases mo <;> rfl

theorem codeFeb_eq (y : ℕ) :
    (if y % 100 = 0 ∧ y % 400 ≠ 0 then 28 else if y % 4 = 0 then 29 else 28) =
      (if y % 4 = 0 ∧ ¬(y % 100 = 0 ∧ y % 400 ≠ 0) then 29 else 28) := by
  split_ifs <;> tauto

theorem datetime_days_eq_spec (y m : ℕ) : datetime_days_in_month y m = specMaxDay y m := by
  unfold datetime_days_in_month specMaxDay
  split_ifs <;> tauto

theorem specMaxDay_le (y m : ℕ) : specMaxDay y m ≤ 31 := by
  unfold specMaxDay
  split_ifs <;> omega

theorem code_table_eq (y mo : ℕ) :
    (if mo = 2 then (if y % 100 = 0 ∧ y % 400 ≠ 0 then 28 else if y % 4 = 0 then 29 else 28)
     else if mo = 4 ∨ mo = 6 ∨ mo = 9 ∨ mo = 11 then 30 else 31) = specMaxDay y mo := by
  unfold specMaxDay
  rw [codeFeb_eq]

theorem dayBuild_day_err_iff (m : RawMatch) (hour minute second micro : ℕ)
    (tz : Option Int) (h1 : 1 ≤ m.month) (h2 : m.month ≤ 12) :
    dayBuild m hour minute second micro tz = .error .dayOutOfRange ↔
      ¬(1 ≤ m.day ∧ m.day ≤ specMaxDay m.year m.month) := by
  simp only [dayBuild]
  rw [days_in_month_lookup _ h1 h2, code_table_eq]
  simp only
  split
  · simp_all
  · rename_i hday
    constructor
    · intro h
      exfalso
      revert h
      split <;> simp
    · intro h
      exact absurd (not_not.mp (by simpa using hday)) h

theorem dayBuild_ok (m : RawMatch) (hour minute second micro : ℕ) (tz : Option Int)
    (hy1 : 1 ≤ m.year) (hy2 : m.year ≤ 9999) (h1 : 1 ≤ m.month) (h2 : m.month ≤ 12)
    (hd1 : 1 ≤ m.day) (hd2 : m.day ≤ specMaxDay m.year m.month)
    (hh : hour ≤ 23) (hmi : minute ≤ 59) (hse : second ≤ 59) (hus : micro ≤ 999999) :
    dayBuild m hour minute second micro tz =
      .ok ⟨m.year, m.month, m.day, hour, minute, second, micro, tz⟩ := by
  simp only [dayBuild]
  rw [days_in_month_lookup _ h1 h2, code_table_eq]
  simp only
  rw [if_neg (show ¬¬(1 ≤ m.day ∧ m.day ≤ specMaxDay m.year m.month) by
    rw [not_not]; exact ⟨hd1, hd2⟩)]
  unfold datetime_mk
  rw [if_pos]
  refine ⟨hy1, hy2, h1, h2, hd1, ?_, hh, hmi, hse, hus⟩
  rw [datetime_days_eq_spec]
  exact hd2

theorem dayBuild_ok_inv {m : RawMatch} {hour minute second micro : ℕ} {tz : Option Int}
    {dt : Datetime} (h : dayBuild m hour minute second micro tz = .ok dt)
    (h1 : 1 ≤ m.month) (h2 : m.month ≤ 12) :
    dt = ⟨m.year, m.month, m.day, hour, minute, second, micro, tz⟩ ∧
      1 ≤ m.day ∧ m.day ≤ specMaxDay m.year m.month := by
  simp only [dayBuild] at h
  rw [days_in_month_lookup _ h1 h2, code_table_eq] at h
  simp only at h
  split at h
  · simp at h
  · rename_i hday
    rw [not_not] at hday
    refine ⟨?_, hday.1, hday.2⟩
    cases hmk : datetime_mk m.year m.month m.day hour minute second micro tz with
    | none => rw [hmk] at h; simp at h
    | some dtv =>
      rw [hmk] at h
      simp only [Except.ok.injEq] at h
      subst h
      unfold datetime_mk at hmk
      split at hmk
      · simp only [Option.some.injEq] at hmk
        exact hmk.symm
      · simp at hmk

theorem tzCompute_error {tz : Option TzPart} {e : PyError}
    (h : tzCompute tz = .error e) :
    e = .fieldOutOfRange .tz_hour ∨ e = .fieldOutOfRange .tz_minute := by
  match tz with
  | none => simp [tzCompute] at h
  | some .z => simp [tzCompute] at h
  | some (.offset pl th tm) =>
    simp only [tzCompute] at h
    split at h
    · left
      injection h with h
      exact h.symm
    · split at h
      · right
        injection h with h
        exact h.symm
      · rename_i hth htm
        rw [not_not] at hth htm
        exfalso
        split at h
        all_goals
          split at h
          · exact Except.noConfusion h
          · rename_i hbound
            exact hbound (by constructor <;> omega)

theorem tzCompute_offset_ok {pl : Bool} {th : ℕ} {tm : Option ℕ} {o : Option Int}
    (h : tzCompute (some (.offset pl th tm)) = .ok o) :
    o = some ((if pl then (1 : Int) else -1) * (th * 60 + tm.getD 0)) ∧
      th ≤ 23 ∧ tm.getD 0 ≤ 59 := by
  simp only [tzCompute] at h
  split at h
  · exact Except.noConfusion h
  split at h
  · exact Except.noConfusion h
  rename_i hth htm
  rw [not_not] at hth htm
  split at h <;>
    · rename_i hpl
      split at h
      · injection h with h
        refine ⟨?_, hth, htm⟩
        rw [← h]
        congr 1
        simp [hpl]
      · exact Except.noConfusion h

theorem parse_ok_inv {s : String} {dt : Datetime} {m : RawMatch}
    (hm : matchDatetime s.data = some m) (h : parse_iso8601 s = .ok dt) :
    dt = ⟨m.year, m.month, m.day, hourOf m, minuteOf m, secondOf m,
          microOf m, dt.tzinfo⟩ ∧
      tzCompute m.timezone = .ok dt.tzinfo ∧
      1 ≤ m.year ∧ 1 ≤ m.month ∧ m.month ≤ 12 ∧ hourOf m ≤ 23 ∧
      minuteOf m ≤ 59 ∧ secondOf m ≤ 59 ∧
      1 ≤ m.day ∧ m.day ≤ specMaxDay m.year m.month := by
  rw [parse_eq_of_match hm] at h
  unfold parseValidate at h
  split at h
  · exact Except.noConfusion h
  split at h
  · exact Except.noConfusion h
  split at h
  · exact Except.noConfusion h
  split at h
  · exact Except.noConfusion h
  split at h
  · exact Except.noConfusion h
  split at h
  · exact Except.noConfusion h
  rename_i htr hy hmo hh hmi hse
  rw [not_lt] at hy
  rw [not_not] at hmo hh hmi hse
  cases htz : tzCompute m.timezone with
  | error e => rw [htz] at h; exact Except.noConfusion h
  | ok tzv =>
    rw [htz] at h
    simp only at h
    have hinv := dayBuild_ok_inv h hmo.1 hmo.2
    obtain ⟨hdt, hd1, hd2⟩ := hinv
    have htzv : dt.tzinfo = tzv := by rw [hdt]
    exact ⟨by rw [hdt], by rw [htzv]; try exact htz, hy, hmo.1, hmo.2, hh, hmi, hse, hd1, hd2⟩

theorem microOf_le {m : RawMatch}
    (hsub : ∀ ds, subsecOf m = some ds → SubsecWF ds) : microOf m ≤ 999999 := by
  unfold microOf
  cases hds : subsecOf m with
  | none => exact Nat.zero_le 999999
  | some ds => exact pyMicro_le (hsub ds hds)

theorem parseValidate_ok (m : RawMatch) (tzv : Option Int)
    (htr : (match timeSepOf m with
            | some b => b != m.hyphen
            | none => false) = false)
    (hy1 : 1 ≤ m.year) (hy2 : m.year ≤ 9999)
    (hmo : 1 ≤ m.month ∧ m.month ≤ 12)
    (hh : hourOf m ≤ 23) (hmi : minuteOf m ≤ 59) (hse : secondOf m ≤ 59)
    (hd1 : 1 ≤ m.day) (hd2 : m.day ≤ specMaxDay m.year m.month)
    (hsub : ∀ ds, subsecOf m = some ds → SubsecWF ds)
    (htz : tzCompute m.timezone = .ok tzv) :
    parseValidate m =
      .ok ⟨m.year, m.month, m.day, hourOf m, minuteOf m, secondOf m, microOf m, tzv⟩ := by
  unfold parseValidate
  rw [if_neg (by simp [htr]), if_neg (by omega), if_neg (by rw [not_not]; exact hmo),
    if_neg (by rw [not_not]; exact hh), if_neg (by rw [not_not]; exact hmi),
    if_neg (by rw [not_not]; exact hse), htz]
  exact dayBuild_ok m _ _ _ _ tzv hy1 hy2 hmo.1 hmo.2 hd1 hd2 hh hmi hse (microOf_le hsub)

theorem parseValidate_never_internal {m : RawMatch}
    (hy4 : m.year < 10000)
    (hsub : ∀ ds, subsecOf m = some ds → SubsecWF ds) :
    parseValidate m ≠ .error .keyError ∧ parseValidate m ≠ .error .ctorOutOfRange := by
  unfold parseValidate
  split
  · simp
  split
  · simp
  split
  · simp
  split
  · simp
  split
  · simp
  split
  · simp
  rename_i htr hy hmo hh hmi hse
  rw [not_lt] at hy
  rw [not_not] at hmo hh hmi hse
  cases htz : tzCompute m.timezone with
  | error e =>
    rcases tzCompute_error htz with he | he <;> simp [he]
  | ok tzv =>
    simp only
    by_cases hday : 1 ≤ m.day ∧ m.day ≤ specMaxDay m.year m.month
    · rw [dayBuild_ok m _ _ _ _ tzv hy (by omega) hmo.1 hmo.2 hday.1 hday.2 hh hmi hse
        (microOf_le hsub)]
      simp
    · rw [(dayBuild_day_err_iff m _ _ _ _ tzv hmo.1 hmo.2).mpr hday]
      simp

theorem parse_never_internal (s : String) :
    parse_iso8601 s ≠ .error .keyError ∧ parse_iso8601 s ≠ .error .ctorOutOfRange := by
  cases hm : matchDatetime s.data with
  | none => rw [parse_eq_noMatch hm]; simp
  | some m =>
    rw [parse_eq_of_match hm]
    obtain ⟨hy4, -, -, hsub⟩ := matchDatetime_inv hm
    exact parseValidate_never_internal hy4 hsub

/-! ### Rendering concrete `YYYY-MM-DD` strings for the universal claims -/

/-- The ASCII digit character for `d`. -/
def digChar (d : ℕ) : Char := Char.ofNat (48 + d)

/-- Two-digit zero-padded rendering of `n < 100`. -/
def pad2 (n : ℕ) : List Char := [digChar (n / 10), digChar (n % 10)]

/-- Four-digit zero-padded rendering of `n < 10000`. -/
def pad4 (n : ℕ) : List Char :=
  [digChar (n / 1000), digChar (n / 100 % 10), digChar (n / 10 % 10), digChar (n % 10)]

/-- The extended date-only string `YYYY-MM-DD`. -/
def dateOnlyStr (y mo d : ℕ) : String :=
  ⟨pad4 y ++ '-' :: (pad2 mo ++ '-' :: pad2 d)⟩

theorem digitVal_digChar {d : ℕ} (h : d < 10) : digitVal (digChar d) = some d := by
  interval_cases d <;> decide

theorem parseDigits2_pad2 {n : ℕ} (h : n < 100) (rest : List Char) :
    parseDigits 2 (pad2 n ++ rest) = some (n, rest) := by
  have h1 : n / 10 < 10 := by omega
  have h2 : n % 10 < 10 := by omega
  simp only [pad2, List.cons_append, List.nil_append, parseDigits,
    digitVal_digChar h1, digitVal_digChar h2]
  have : n / 10 * 10 ^ 1 + (n % 10 * 10 ^ 0 + 0) = n := by
    simp [pow_succ, pow_zero]
    omega
  rw [this]
  rfl

theorem parseDigits4_pad4 {n : ℕ} (h : n < 10000) (rest : List Char) :
    parseDigits 4 (pad4 n ++ rest) = some (n, rest) := by
  have h1 : n / 1000 < 10 := by omega
  have h2 : n / 100 % 10 < 10 := by omega
  have h3 : n / 10 % 10 < 10 := by omega
  have h4 : n % 10 < 10 := by omega
  simp only [pad4, List.cons_append, List.nil_append, parseDigits,
    digitVal_digChar h1, digitVal_digChar h2, digitVal_digChar h3, digitVal_digChar h4]
  have : n / 1000 * 10 ^ 3 + (n / 100 % 10 * 10 ^ 2 + (n / 10 % 10 * 10 ^ 1 +
      (n % 10 * 10 ^ 0 + 0))) = n := by
    simp [pow_succ, pow_zero]
    omega
  rw [this]
  rfl

theorem parseDigits2_pad2_nil {n : ℕ} (h : n < 100) :
    parseDigits 2 (pad2 n) = some (n, []) := by
  have := parseDigits2_pad2 h []
  simpa using this

theorem matchDatetime_dateOnly {y mo d : ℕ} (hy : y < 10000) (hm : mo < 100)
    (hd : d < 100) :
    matchDatetime (dateOnlyStr y mo d).data = some ⟨y, true, mo, d, none, none⟩ := by
  show matchDatetime (pad4 y ++ '-' :: (pad2 mo ++ '-' :: pad2 d)) = _
  unfold matchDatetime
  rw [parseDigits4_pad4 hy]
  simp only
  rw [parseDigits2_pad2 hm]
  simp [parseDigits2_pad2_nil hd, parseTime, parseTz]

/-! ### Claim theorems -/

/-- C1: for every 4-digit year `1583 ≤ y ≤ 9999`, 2-digit month and 2-digit
day within the calendar bound for that year and month, parsing the
date-only string `YYYY-MM-DD` succeeds with exactly that year, month and
day, zero hour, minute, second and microsecond, and no UTC offset. -/
theorem claim1_date_only_parses (y mo d : ℕ) (hy1 : 1583 ≤ y) (hy2 : y ≤ 9999)
    (hm1 : 1 ≤ mo) (hm2 : mo ≤ 12) (hd1 : 1 ≤ d) (hd2 : d ≤ specMaxDay y mo) :
    parse_iso8601 (dateOnlyStr y mo d) = .ok ⟨y, mo, d, 0, 0, 0, 0, none⟩ := by
  have hd' : d < 100 := by
    have := specMaxDay_le y mo
    omega
  have hmatch := matchDatetime_dateOnly (show y < 10000 by omega)
    (show mo < 100 by omega) hd'
  rw [parse_eq_of_match hmatch]
  exact parseValidate_ok ⟨y, true, mo, d, none, none⟩ none
    rfl (show (1:ℕ) ≤ y by omega) hy2 ⟨hm1, hm2⟩ (show (0:ℕ) ≤ 23 by norm_num)
    (show (0:ℕ) ≤ 59 by norm_num) (show (0:ℕ) ≤ 59 by norm_num) hd1 hd2
    (by intro ds h; simp [subsecOf] at h) rfl

/-- Witness for C1 at the concrete date 2017-01-08. -/
theorem claim1_date_only_parses_witness :
    parse_iso8601 (dateOnlyStr 2017 1 8) = .ok ⟨2017, 1, 8, 0, 0, 0, 0, none⟩ :=
  claim1_date_only_parses 2017 1 8 (by norm_num) (by norm_num) (by norm_num)
    (by norm_num) (by norm_num) (by decide)

/-- C2: whenever the matched input has a time part with an explicit minute
whose separator style differs from the date's, the parse fails with the
truncation-inconsistency error, as the two quoted inputs illustrate. -/
theorem claim2_truncation_mismatch :
    (∀ (s : String) (m : RawMatch) (b : Bool), matchDatetime s.data = some m →
        timeSepOf m = some b → b ≠ m.hyphen →
        parse_iso8601 s = .error .inconsistentFormat) ∧
      parse_iso8601 "2019-10-01T1223" = .error .inconsistentFormat ∧
      parse_iso8601 "20191001T12:23" = .error .inconsistentFormat := by
  refine ⟨?_, by decide, by decide⟩
  intro s m b hm hsep hne
  rw [parse_eq_of_match hm]
  unfold parseValidate
  rw [if_pos]
  rw [hsep]
  simpa using hne

/-- Witness for C2 at the first quoted input. -/
theorem claim2_truncation_mismatch_witness :
    parse_iso8601 "2019-10-01T1223" = .error .inconsistentFormat :=
  claim2_truncation_mismatch.1 "2019-10-01T1223"
    ⟨2019, true, 10, 1, some ⟨12, some ⟨false, 23, none⟩⟩, none⟩ false
    (by decide) (by decide) (by decide)

theorem dayBuild_error {m : RawMatch} {hour minute second micro : ℕ}
    {tz : Option Int} {e : PyError}
    (h : dayBuild m hour minute second micro tz = .error e) :
    e = .keyError ∨ e = .dayOutOfRange ∨ e = .ctorOutOfRange := by
  simp only [dayBuild] at h
  split at h
  · left
    injection h with h
    exact h.symm
  · split at h
    · right; left
      injection h with h
      exact h.symm
    · split at h
      · exact Except.noConfusion h
      · right; right
        injection h with h
        exact h.symm

/-- C10: an hour-only time part leaves the colon capture unset, so the
truncation-consistency check cannot fire; both quoted inputs parse. -/
theorem claim10_hour_only :
    parse_iso8601 "2019-10-01T12" = .ok ⟨2019, 10, 1, 12, 0, 0, 0, none⟩ ∧
      parse_iso8601 "20191001T12" = .ok ⟨2019, 10, 1, 12, 0, 0, 0, none⟩ ∧
      ∀ (s : String) (m : RawMatch), matchDatetime s.data = some m →
        timeSepOf m = none → parse_iso8601 s ≠ .error .inconsistentFormat := by
  refine ⟨by decide, by decide, ?_⟩
  intro s m hm hsep
  rw [parse_eq_of_match hm]
  unfold parseValidate
  rw [if_neg (by rw [hsep]; simp)]
  split
  · simp
  split
  · simp
  split
  · simp
  split
  · simp
  split
  · simp
  cases htz : tzCompute m.timezone with
  | error e =>
    rcases tzCompute_error htz with he | he <;> simp [he]
  | ok tzv =>
    simp only
    intro h
    rcases dayBuild_error h with he | he | he <;> exact PyError.noConfusion he

/-- C4: a signed timezone contributes `sign * (60 * hours + minutes)`
minutes of offset, `Z` contributes an offset of zero, and an absent
timezone leaves the result naive; the three quoted inputs evaluate to
+721, −188 and 0 minutes. -/
theorem claim4_timezone_offsets :
    (∀ (s : String) (m : RawMatch) (pl : Bool) (th : ℕ) (tm : Option ℕ) (dt : Datetime),
        matchDatetime s.data = some m → m.timezone = some (.offset pl th tm) →
        parse_iso8601 s = .ok dt →
        dt.tzinfo = some ((if pl then (1 : Int) else -1) * (th * 60 + tm.getD 0))) ∧
      (∀ (s : String) (m : RawMatch) (dt : Datetime), matchDatetime s.data = some m →
        m.timezone = some .z → parse_iso8601 s = .ok dt → dt.tzinfo = some 0) ∧
      (∀ (s : String) (m : RawMatch) (dt : Datetime), matchDatetime s.data = some m →
        m.timezone = none → parse_iso8601 s = .ok dt → dt.tzinfo = none) ∧
      parse_iso8601 "1905-12-22T23:59+12:01" = .ok ⟨1905, 12, 22, 23, 59, 0, 0, some 721⟩ ∧
      parse_iso8601 "1912-06-23T00-0308" = .ok ⟨1912, 6, 23, 0, 0, 0, 0, some (-188)⟩ ∧
      parse_iso8601 "19100622T1111Z" = .ok ⟨1910, 6, 22, 11, 11, 0, 0, some 0⟩ := by
  refine ⟨?_, ?_, ?_, by decide, by decide, by decide⟩
  · intro s m pl th tm dt hm hshape h
    obtain ⟨-, htz, -⟩ := parse_ok_inv hm h
    rw [hshape] at htz
    exact (tzCompute_offset_ok htz).1.symm ▸ rfl
  · intro s m dt hm hshape h
    obtain ⟨-, htz, -⟩ := parse_ok_inv hm h
    rw [hshape] at htz
    simp only [tzCompute] at htz
    injection htz with htz
    exact htz.symm
  · intro s m dt hm hshape h
    obtain ⟨-, htz, -⟩ := parse_ok_inv hm h
    rw [hshape] at htz
    simp only [tzCompute] at htz
    injection htz with htz
    exact htz.symm

/-- Witness for C4 at the concrete input `1905-12-22T23:59+12:01`. -/
theorem claim4_timezone_offsets_witness :
    (⟨1905, 12, 22, 23, 59, 0, 0, some 721⟩ : Datetime).tzinfo =
      some ((if true then (1 : Int) else -1) * (12 * 60 + (some 1).getD 0)) :=
  claim4_timezone_offsets.1 "1905-12-22T23:59+12:01"
    ⟨1905, true, 12, 22, some ⟨23, some ⟨true, 59, none⟩⟩, some (.offset true 12 (some 1))⟩
    true 12 (some 1) ⟨1905, 12, 22, 23, 59, 0, 0, some 721⟩
    (by decide) (by decide) (by decide)

/-- C3: the validator's day check bounds the day by the table from the
proleptic Gregorian leap rule (given an already validated month), and the
four quoted dates behave accordingly. -/
theorem claim3_gregorian_day_check :
    (∀ (m : RawMatch) (hour minute second micro : ℕ) (tz : Option Int),
        1 ≤ m.month → m.month ≤ 12 →
        (dayBuild m hour minute second micro tz = .error .dayOutOfRange ↔
          ¬(1 ≤ m.day ∧ m.day ≤ specMaxDay m.year m.month))) ∧
      parse_iso8601 "2000-02-29" = .ok ⟨2000, 2, 29, 0, 0, 0, 0, none⟩ ∧
      parse_iso8601 "2004-02-29" = .ok ⟨2004, 2, 29, 0, 0, 0, 0, none⟩ ∧
      parse_iso8601 "1900-02-29" = .error .dayOutOfRange ∧
      parse_iso8601 "2004-02-30" = .error .dayOutOfRange := by
  exact ⟨fun m hour minute second micro tz h1 h2 =>
    dayBuild_day_err_iff m hour minute second micro tz h1 h2,
    by decide, by decide, by decide, by decide⟩

/-- Witness for C3 at the non-leap century date 1900-02-29. -/
theorem claim3_gregorian_day_check_witness :
    dayBuild ⟨1900, true, 2, 29, none, none⟩ 0 0 0 0 none = .error .dayOutOfRange ↔
      ¬(1 ≤ (⟨1900, true, 2, 29, none, none⟩ : RawMatch).day ∧
        (⟨1900, true, 2, 29, none, none⟩ : RawMatch).day ≤
          specMaxDay (⟨1900, true, 2, 29, none, none⟩ : RawMatch).year
            (⟨1900, true, 2, 29, none, none⟩ : RawMatch).month) :=
  claim3_gregorian_day_check.1 ⟨1900, true, 2, 29, none, none⟩ 0 0 0 0 none
    (by decide) (by decide)

/-- C5 (divergence evidence): on `1996-02-10T08:17:17.0157` the float-based
conversion yields 15699 microseconds, while right-padding the captured
digits `0157` to six places yields 15700. -/
theorem claim5_micro_divergence :
    parse_iso8601 "1996-02-10T08:17:17.0157" =
      .ok ⟨1996, 2, 10, 8, 17, 17, 15699, none⟩ ∧
    pyMicro [0, 1, 5, 7] = 15699 ∧
    digitsVal [0, 1, 5, 7] * 10 ^ 2 = 15700 := ⟨by decide, by decide, by decide⟩

/-- C6 (divergence evidence): a single trailing newline is accepted by the
pattern's final `$` anchor, so `2019-10-01\n` parses successfully instead
of failing with the grammar error; the other quoted families do fail. -/
theorem claim6_trailing_newline_accepted :
    parse_iso8601 "2019-10-01\n" = .ok ⟨2019, 10, 1, 0, 0, 0, 0, none⟩ ∧
    parse_iso8601 "" = .error .noMatch ∧
    parse_iso8601 " " = .error .noMatch ∧
    parse_iso8601 "2345-2-10" = .error .noMatch :=
  ⟨by decide, by decide, by decide, by decide⟩

/-- C8: a successful parse implies every numeric field was in range, and
each quoted out-of-range input reports the matching range error. -/
theorem claim8_range_rejection :
    (∀ (s : String) (m : RawMatch) (dt : Datetime), matchDatetime s.data = some m →
        parse_iso8601 s = .ok dt →
        1 ≤ m.year ∧ 1 ≤ m.month ∧ m.month ≤ 12 ∧ hourOf m ≤ 23 ∧ minuteOf m ≤ 59 ∧
          secondOf m ≤ 59 ∧ 1 ≤ m.day ∧ m.day ≤ specMaxDay m.year m.month) ∧
      parse_iso8601 "2019-10-01T24" = .error (.fieldOutOfRange .hour) ∧
      parse_iso8601 "2019-10-01T12:60" = .error (.fieldOutOfRange .minute) ∧
      parse_iso8601 "2019-10-01T12:00:60" = .error (.fieldOutOfRange .second) ∧
      parse_iso8601 "2019-00-01" = .error (.fieldOutOfRange .month) ∧
      parse_iso8601 "2019-13-01" = .error (.fieldOutOfRange .month) ∧
      parse_iso8601 "2019-10-00" = .error .dayOutOfRange ∧
      parse_iso8601 "2019-10-32" = .error .dayOutOfRange ∧
      parse_iso8601 "0000-01-01" = .error (.fieldOutOfRange .year) ∧
      parse_iso8601 "2019-10-01T00+24" = .error (.fieldOutOfRange .tz_hour) ∧
      parse_iso8601 "2019-10-01T00+12:60" = .error (.fieldOutOfRange .tz_minute) := by
  refine ⟨?_, by decide, by decide, by decide, by decide, by decide, by decide,
    by decide, by decide, by decide, by decide⟩
  intro s m dt hm h
  obtain ⟨-, -, hy, hm1, hm2, hh, hmi, hse, hd1, hd2⟩ := parse_ok_inv hm h
  exact ⟨hy, hm1, hm2, hh, hmi, hse, hd1, hd2⟩

/-- Witness for C8's universal part at the parse of `2019-10-01`. -/
theorem claim8_range_rejection_witness :
    1 ≤ (⟨2019, true, 10, 1, none, none⟩ : RawMatch).year ∧
      1 ≤ (⟨2019, true, 10, 1, none, none⟩ : RawMatch).month ∧
      (⟨2019, true, 10, 1, none, none⟩ : RawMatch).month ≤ 12 ∧
      hourOf ⟨2019, true, 10, 1, none, none⟩ ≤ 23 ∧
      minuteOf ⟨2019, true, 10, 1, none, none⟩ ≤ 59 ∧
      secondOf ⟨2019, true, 10, 1, none, none⟩ ≤ 59 ∧
      1 ≤ (⟨2019, true, 10, 1, none, none⟩ : RawMatch).day ∧
      (⟨2019, true, 10, 1, none, none⟩ : RawMatch).day ≤
        specMaxDay (⟨2019, true, 10, 1, none, none⟩ : RawMatch).year
          (⟨2019, true, 10, 1, none, none⟩ : RawMatch).month :=
  claim8_range_rejection.1 "2019-10-01" ⟨2019, true, 10, 1, none, none⟩
    ⟨2019, 10, 1, 0, 0, 0, 0, none⟩ (by decide) (by decide)

/-- C9: after successful validation nothing can fail: the parser never
raises the dict-lookup error nor a constructor rejection, and the month
table is total on validated months. -/
theorem claim9_builder_total :
    (∀ s : String, parse_iso8601 s ≠ .error .keyError ∧
        parse_iso8601 s ≠ .error .ctorOutOfRange) ∧
      ∀ (dif mo : ℕ), 1 ≤ mo → mo ≤ 12 →
        ((days_in_month_list dif).lookup mo).isSome = true := by
  refine ⟨parse_never_internal, ?_⟩
  intro dif mo h1 h2
  rw [days_in_month_lookup dif h1 h2]
  rfl

/-- Witness for C9's table-totality part at February. -/
theorem claim9_builder_total_witness :
    ((days_in_month_list 28).lookup 2).isSome = true :=
  claim9_builder_total.2 28 2 (by decide) (by decide)

/-- The truncation-consistency violation: a participating time separator
whose style differs from the date separator. -/
def violTrunc (m : RawMatch) : Prop :=
  ∃ b, timeSepOf m = some b ∧ b ≠ m.hyphen

/-- The timezone offset fields, when present, are in range. -/
def tzFieldsOK (tz : Option TzPart) : Prop :=
  ∀ pl th tm, tz = some (.offset pl th tm) → th ≤ 23 ∧ tm.getD 0 ≤ 59

theorem truncCond_eq (m : RawMatch) :
    ((match timeSepOf m with
      | some b => b != m.hyphen
      | none => false) = true) ↔ violTrunc m := by
  cases h : timeSepOf m with
  | none => simp [violTrunc, h]
  | some b => simp [violTrunc, h]

theorem tzCompute_ok_of {tz : Option TzPart} (h : tzFieldsOK tz) :
    ∃ o, tzCompute tz = .ok o := by
  match tz with
  | none => exact ⟨none, rfl⟩
  | some .z => exact ⟨some 0, rfl⟩
  | some (.offset pl th tm) =>
    obtain ⟨h1, h2⟩ := h pl th tm rfl
    refine ⟨some ((if pl then (1 : Int) else -1) * (th * 60 + tm.getD 0)), ?_⟩
    simp only [tzCompute]
    rw [if_neg (not_not_intro h1), if_neg (not_not_intro h2), if_pos]
    cases pl <;> simp <;> omega

/-- C7: after a successful match, validation runs in the fixed order
truncation, year, month, hour, minute, second, timezone hour, timezone
minute, day; exactly the first violation is reported, and an input with no
violation parses; the two quoted inputs show month (respectively hour)
shadowing an invalid day. -/
theorem claim7_validation_order :
    (∀ (s : String) (m : RawMatch), matchDatetime s.data = some m →
      (violTrunc m → parse_iso8601 s = .error .inconsistentFormat) ∧
      (¬violTrunc m → m.year < 1 → parse_iso8601 s = .error (.fieldOutOfRange .year)) ∧
      (¬violTrunc m → 1 ≤ m.year → ¬(1 ≤ m.month ∧ m.month ≤ 12) →
        parse_iso8601 s = .error (.fieldOutOfRange .month)) ∧
      (¬violTrunc m → 1 ≤ m.year → (1 ≤ m.month ∧ m.month ≤ 12) → ¬(hourOf m ≤ 23) →
        parse_iso8601 s = .error (.fieldOutOfRange .hour)) ∧
      (¬violTrunc m → 1 ≤ m.year → (1 ≤ m.month ∧ m.month ≤ 12) → hourOf m ≤ 23 →
        ¬(minuteOf m ≤ 59) → parse_iso8601 s = .error (.fieldOutOfRange .minute)) ∧
      (¬violTrunc m → 1 ≤ m.year → (1 ≤ m.month ∧ m.month ≤ 12) → hourOf m ≤ 23 →
        minuteOf m ≤ 59 → ¬(secondOf m ≤ 59) →
        parse_iso8601 s = .error (.fieldOutOfRange .second)) ∧
      (¬violTrunc m → 1 ≤ m.year → (1 ≤ m.month ∧ m.month ≤ 12) → hourOf m ≤ 23 →
        minuteOf m ≤ 59 → secondOf m ≤ 59 →
        ∀ pl th tm, m.timezone = some (.offset pl th tm) → ¬(th ≤ 23) →
        parse_iso8601 s = .error (.fieldOutOfRange .tz_hour)) ∧
      (¬violTrunc m → 1 ≤ m.year → (1 ≤ m.month ∧ m.month ≤ 12) → hourOf m ≤ 23 →
        minuteOf m ≤ 59 → secondOf m ≤ 59 →
        ∀ pl th tm, m.timezone = some (.offset pl th tm) → th ≤ 23 → ¬(tm.getD 0 ≤ 59) →
        parse_iso8601 s = .error (.fieldOutOfRange .tz_minute)) ∧
      (¬violTrunc m → 1 ≤ m.year → (1 ≤ m.month ∧ m.month ≤ 12) → hourOf m ≤ 23 →
        minuteOf m ≤ 59 → secondOf m ≤ 59 → tzFieldsOK m.timezone →
        ¬(1 ≤ m.day ∧ m.day ≤ specMaxDay m.year m.month) →
        parse_iso8601 s = .error .dayOutOfRange) ∧
      (¬violTrunc m → 1 ≤ m.year → (1 ≤ m.month ∧ m.month ≤ 12) → hourOf m ≤ 23 →
        minuteOf m ≤ 59 → secondOf m ≤ 59 → tzFieldsOK m.timezone →
        (1 ≤ m.day ∧ m.day ≤ specMaxDay m.year m.month) →
        ∃ dt, parse_iso8601 s = .ok dt)) ∧
    parse_iso8601 "2019-13-66" = .error (.fieldOutOfRange .month) ∧
    parse_iso8601 "2019-10-66T25" = .error (.fieldOutOfRange .hour) := by
  refine ⟨?_, by decide, by decide⟩
  intro s m hm
  have hpe := parse_eq_of_match hm
  obtain ⟨hy4, -, -, hsub⟩ := matchDatetime_inv hm
  refine ⟨?_, ?_, ?_, ?_, ?_, ?_, ?_, ?_, ?_, ?_⟩
  · intro hv
    rw [hpe]
    unfold parseValidate
    rw [if_pos ((truncCond_eq m).mpr hv)]
  · intro hnv hy
    rw [hpe]
    unfold parseValidate
    rw [if_neg (by rw [truncCond_eq]; exact hnv), if_pos hy]
  · intro hnv hy h3
    rw [hpe]
    unfold parseValidate
    rw [if_neg (by rw [truncCond_eq]; exact hnv), if_neg (by omega), if_pos h3]
  · intro hnv hy h3 h4
    rw [hpe]
    unfold parseValidate
    rw [if_neg (by rw [truncCond_eq]; exact hnv), if_neg (by omega),
      if_neg (not_not_intro h3), if_pos h4]
  · intro hnv hy h3 h4 h5
    rw [hpe]
    unfold parseValidate
    rw [if_neg (by rw [truncCond_eq]; exact hnv), if_neg (by omega),
      if_neg (not_not_intro h3), if_neg (not_not_intro h4), if_pos h5]
  · intro hnv hy h3 h4 h5 h6
    rw [hpe]
    unfold parseValidate
    rw [if_neg (by rw [truncCond_eq]; exact hnv), if_neg (by omega),
      if_neg (not_not_intro h3), if_neg (not_not_intro h4), if_neg (not_not_intro h5),
      if_pos h6]
  · intro hnv hy h3 h4 h5 h6 pl th tm hshape hth
    rw [hpe]
    unfold parseValidate
    rw [if_neg (by rw [truncCond_eq]; exact hnv), if_neg (by omega),
      if_neg (not_not_intro h3), if_neg (not_not_intro h4), if_neg (not_not_intro h5),
      if_neg (not_not_intro h6), hshape]
    simp only [tzCompute]
    rw [if_pos hth]
  · intro hnv hy h3 h4 h5 h6 pl th tm hshape hth htm
    rw [hpe]
    unfold parseValidate
    rw [if_neg (by rw [truncCond_eq]; exact hnv), if_neg (by omega),
      if_neg (not_not_intro h3), if_neg (not_not_intro h4), if_neg (not_not_intro h5),
      if_neg (not_not_intro h6), hshape]
    simp only [tzCompute]
    rw [if_neg (not_not_intro hth), if_pos htm]
  · intro hnv hy h3 h4 h5 h6 htzok h9
    rw [hpe]
    unfold parseValidate
    rw [if_neg (by rw [truncCond_eq]; exact hnv), if_neg (by omega),
      if_neg (not_not_intro h3), if_neg (not_not_intro h4), if_neg (not_not_intro h5),
      if_neg (not_not_intro h6)]
    obtain ⟨o, ho⟩ := tzCompute_ok_of htzok
    rw [ho]
    simp only
    exact (dayBuild_day_err_iff m _ _ _ _ o h3.1 h3.2).mpr h9
  · intro hnv hy h3 h4 h5 h6 htzok h9
    obtain ⟨o, ho⟩ := tzCompute_ok_of htzok
    rw [hpe]
    refine ⟨_, parseValidate_ok m o ?_ hy (by omega) h3 h4 h5 h6 h9.1 h9.2 hsub ho⟩
    cases hts : timeSepOf m with
    | none => rfl
    | some b =>
      have hb : b = m.hyphen := by
        by_contra hb
        exact hnv ⟨b, hts, hb⟩
      simp [hts, hb]

/-- Witness for C7's universal part: invalid month and invalid day on
`2019-13-66` report the month error. -/
theorem claim7_validation_order_witness :
    parse_iso8601 "2019-13-66" = .error (.fieldOutOfRange .month) :=
  ((claim7_validation_order.1 "2019-13-66" ⟨2019, true, 13, 66, none, none⟩
    (by decide)).2.2.1) (by rintro ⟨b, hb, -⟩; simp [timeSepOf] at hb) (by decide) (by decide)

/-- Witness for C10's universal part at the parse of `2019-10-01T12`. -/
theorem claim10_hour_only_witness :
    parse_iso8601 "2019-10-01T12" ≠ .error .inconsistentFormat :=
  claim10_hour_only.2.2 "2019-10-01T12" ⟨2019, true, 10, 1, some ⟨12, none⟩, none⟩
    (by decide) (by decide)
